import Mathlib

/-!
Verification development for the SLADE console (src/src/Console.cpp).

The file shallowly embeds the console's data model and operations:
the transcript/history/notification state, the command registry, the
typed config-variable (cvar) store, and the line dispatcher
`Console.execute`.  Pure helpers embed the C library's decimal
parsers (`atoi`, `atof`) and printf renderings (`"%d"`, `"%1.4f"`) as
they are used by the dispatcher: they are only ever applied to single
whitespace-free tokens, and the float value is modelled as a rational
number (every finite machine float is a rational; the 4-decimal
rendering is modelled as round-to-nearest multiple of 1/10000).

Collaborators whose sources are not part of the excerpt (Tokenizer.cpp,
CVar.cpp) are modelled from the spec where noted.
-/

/-- Decimal digit character for a value below ten (character code 48 + d). -/
def digitChar (d : Nat) : Char := Char.ofNat (48 + d)

/-- Numeric value of a decimal digit character. -/
def digitVal (c : Char) : Nat := c.toNat - 48

/-- Scan a maximal leading run of decimal digits, accumulating the value
read so far and the count of digits consumed; returns
(value, count, rest).  This is the digit loop shared by the C library's
decimal parsers `atoi` and `atof`. -/
def scanDigits : List Char → Nat → Nat → Nat × Nat × List Char
  | [], acc, k => (acc, k, [])
  | c :: cs, acc, k =>
    if c.isDigit then scanDigits cs (10 * acc + digitVal c) (k + 1)
    else (acc, k, c :: cs)

/-- Decimal digits of a natural number, most significant first.  The
first argument is fuel making the recursion structural; any fuel above
the number itself yields the digits (see `scanDigits_natToDigitsAux`,
whose hypothesis is exactly that the fuel exceeds the number). -/
def natToDigitsAux : Nat → Nat → List Char
  | 0, _ => []
  | fuel + 1, n =>
    if n < 10 then [digitChar n]
    else natToDigitsAux fuel (n / 10) ++ [digitChar (n % 10)]

/-- Decimal digits of a natural number, most significant first. -/
def natToDigits (n : Nat) : List Char := natToDigitsAux (n + 1) n

/-- Sign-and-digits stage of the `atoi` parse, after whitespace has been
skipped: an optional sign, then a maximal run of decimal digits; no
digits parse as zero. -/
def atoiSigned : List Char → Int
  | [] => 0
  | c :: rest =>
    if c = '-' then -(((scanDigits rest 0 0).1 : Int))
    else if c = '+' then ((scanDigits rest 0 0).1 : Int)
    else ((scanDigits (c :: rest) 0 0).1 : Int)

/-- Embedding of the C library's `atoi` as applied by the dispatcher to a
single token: optional leading whitespace, an optional sign, then a
maximal run of decimal digits. -/
def atoiChars (cs : List Char) : Int :=
  atoiSigned (cs.dropWhile fun c => c.isWhitespace)

/-- Embedding of `atoi` on strings (Console.cpp line 124). -/
def atoi (s : String) : Int := atoiChars s.data

/-- Fraction stage of the `atof` parse: given the integer part already
read, consume an optional point followed by fraction digits. -/
def atofFrac (ipart : Nat) : List Char → ℚ
  | '.' :: fr =>
    (ipart : ℚ) + ((scanDigits fr 0 0).1 : ℚ) / (10 : ℚ) ^ (scanDigits fr 0 0).2.1
  | _ => (ipart : ℚ)

/-- Unsigned part of the `atof` parse: integer digits, then an optional
point followed by fraction digits. -/
def atofMag (cs : List Char) : ℚ :=
  let p := scanDigits cs 0 0
  atofFrac p.1 p.2.2

/-- Sign stage of the `atof` parse, after whitespace has been skipped. -/
def atofSigned : List Char → ℚ
  | [] => 0
  | c :: rest =>
    if c = '-' then -(atofMag rest)
    else if c = '+' then atofMag rest
    else atofMag (c :: rest)

/-- Embedding of the C library's `atof` as applied by the dispatcher to a
single token: optional whitespace and sign, decimal digits, optional
fraction (exponent notation never occurs on the dispatcher's inputs). -/
def atofChars (cs : List Char) : ℚ :=
  atofSigned (cs.dropWhile fun c => c.isWhitespace)

/-- Embedding of `atof` on strings (Console.cpp line 126). -/
def atof (s : String) : ℚ := atofChars s.data

/-- Characters of the printf `"%d"` rendering of an integer. -/
def intToChars (i : Int) : List Char :=
  if i < 0 then '-' :: natToDigits i.natAbs else natToDigits i.natAbs

/-- Printf `"%d"` rendering of an integer (Console.cpp line 141). -/
def formatInt (i : Int) : String := String.mk (intToChars i)

/-- Pad a digit list on the left with zeros up to width k. -/
def padZeros (k : Nat) (l : List Char) : List Char :=
  List.replicate (k - l.length) '0' ++ l

/-- Digit rendering of the fixed-point magnitude m/10000 with exactly
four digits after the point. -/
def floatMagChars (m : Nat) : List Char :=
  natToDigits (m / 10000) ++ '.' :: padZeros 4 (natToDigits (m % 10000))

/-- Printf `"%1.4f"` rendering (Console.cpp line 143): the value, here
modelled as a rational, rounded to the nearest multiple of 1/10000 and
rendered with exactly four digits after the decimal point. -/
def formatFloat (x : ℚ) : String :=
  let n : Int := round (x * 10000)
  String.mk (if n < 0 then '-' :: floatMagChars n.natAbs else floatMagChars n.natAbs)

/-- Observable console state: the transcript (`log`, appended at the
back), the command history (`cmd_log`, inserted at the front), and the
announcement channel (event names, most recent first; its length is the
notification count). -/
structure ConsoleState where
  log : List String
  cmd_log : List String
  announcements : List String
deriving DecidableEq

/-- Embedding of `Announcer::announce` as used by Console.cpp: fires a
notification event (payload is an empty MemChunk, not modelled). -/
def announce (evt : String) (st : ConsoleState) : ConsoleState :=
  { st with announcements := evt :: st.announcements }

/-- Embedding of `Console::logMessage` (Console.cpp lines 158-169): add a
trailing newline if the message lacks one, append to the transcript,
announce `console_logmessage`. -/
def logMessage (message : String) (st : ConsoleState) : ConsoleState :=
  let m := if message.data.getLast? = some '\n' then message else message ++ "\n"
  { st with
      log := st.log ++ [m],
      announcements := "console_logmessage" :: st.announcements }

/-- Embedding of `Console::lastLogLine` (Console.cpp lines 174-183). -/
def lastLogLine (st : ConsoleState) : String := st.log.getLast?.getD ""

/-- Embedding of `Console::lastCommand` (Console.cpp lines 188-197): the
back of the `cmd_log` vector, or the empty string if none. -/
def lastCommand (st : ConsoleState) : String := st.cmd_log.getLast?.getD ""

/-- Embedding of a `ConsoleCommand` (Console.h): a name, a handler
function and a minimum argument count.  Handlers act on the observable
console state (the repository's handlers write the transcript through
`logMessage`). -/
structure ConsoleCommand where
  name : String
  commandFunc : List String → ConsoleState → ConsoleState
  min_args : Nat

/-- Embedding of `ConsoleCommand::execute` (Console.cpp lines 251-257):
run the handler if at least `min_args` arguments were given, otherwise
log `Missing command arguments`. -/
def ConsoleCommand.execute (c : ConsoleCommand) (args : List String)
    (st : ConsoleState) : ConsoleState :=
  if c.min_args ≤ args.length then c.commandFunc args st
  else logMessage "Missing command arguments" st

/-- Embedding of `Console::addCommand` (Console.cpp lines 62-68):
append the command, then sort the whole registry by name ascending
(`std::sort` with the name-comparing order; the comparison on Lean
strings is lexicographic by character code, which on the registry's
ASCII names is the ordinal byte-wise order). -/
def addCommand (cs : List ConsoleCommand) (c : ConsoleCommand) : List ConsoleCommand :=
  List.insertionSort (fun a b => a.name ≤ b.name) (cs ++ [c])

/-- Embedding of `Console::command` (Console.cpp lines 228-233): the
command at the given index, or the first command on an out-of-range
index.  The result is an `Option` because on an empty registry the C++
read `commands[0]` has no defined value. -/
def Console.command (cs : List ConsoleCommand) (index : Nat) : Option ConsoleCommand :=
  if h : index < cs.length then some cs[index] else cs[0]?

/-- Typed value of a config variable: the tagged union of the four cvar
types.  The float value is modelled as a rational (every finite machine
float is a rational number). -/
inductive CVarValue where
  | bool (b : Bool)
  | int (i : Int)
  | float (q : ℚ)
  | str (s : String)
deriving DecidableEq

/-- Config variable: a name and a typed current value.  The read-only /
no-persist flags live in the absent CVar.cpp and are never consulted by
the dispatcher, so they are not modelled. -/
structure CVar where
  name : String
  value : CVarValue
deriving DecidableEq

/-- Modelled from the spec: `lookup(name) -> Variable?` of the Variable
Store (§4.1); `get_cvar` itself lives in CVar.cpp, which is not part of
the excerpt.  A pure lookup of the first variable with the given name. -/
def get_cvar (name : String) (cvars : List CVar) : Option CVar :=
  cvars.find? (fun v => v.name == name)

/-- Parse a token into a variable of the given type, embedding the
dispatcher's assignment branches (Console.cpp lines 117-131): booleans
compare the token against the exact literals "0" and "false", integers
go through `atoi`, floats through `atof`, strings are stored verbatim.
The in-place store of the parsed value is the CVar assignment operator
(CVar.cpp, absent), modelled from the spec: `setFromString` "mutates the
variable's stored value in place" (§4.1). -/
def cvarSetFromString (old : CVarValue) (s : String) : CVarValue :=
  match old with
  | .bool _ => .bool (if s == "0" || s == "false" then false else true)
  | .int _ => .int (atoi s)
  | .float _ => .float (atof s)
  | .str _ => .str s

/-- Render a variable's current value, embedding the dispatcher's print
branches (Console.cpp lines 133-146): booleans as "true"/"false",
integers via `"%d"`, floats via `"%1.4f"`, strings verbatim. -/
def cvarFormatToString : CVarValue → String
  | .bool b => if b then "true" else "false"
  | .int i => formatInt i
  | .float q => formatFloat q
  | .str s => s

/-- Type tags of two cvar values agree ("a fresh variable of the same
type"). -/
def sameType : CVarValue → CVarValue → Bool
  | .bool _, .bool _ => true
  | .int _, .int _ => true
  | .float _, .float _ => true
  | .str _, .str _ => true
  | _, _ => false

/-- Replace the value of the first variable with the given name,
modelling assignment through the pointer returned by `get_cvar`. -/
def updateCVar : List CVar → String → CVarValue → List CVar
  | [], _, _ => []
  | v :: vs, n, val =>
    if v.name == n then { v with value := val } :: vs
    else v :: updateCVar vs n val

/-- Modelled from the spec: the Tokenizer collaborator (Tokenizer.cpp is
not part of the excerpt) performs "whitespace-delimited splitting" into
an ordered sequence of tokens, with "empty input produces an empty
sequence" (§6).  The accumulator holds the current token reversed. -/
def splitTokens : List Char → List Char → List String
  | [], acc => if acc.isEmpty then [] else [String.mk acc.reverse]
  | c :: cs, acc =>
    if c.isWhitespace then
      if acc.isEmpty then splitTokens cs []
      else String.mk acc.reverse :: splitTokens cs []
    else splitTokens cs (c :: acc)

/-- Tokenize a raw input line into whitespace-delimited tokens. -/
def tokenize (s : String) : List String := splitTokens s.data []

/-- The console: the command registry, the config-variable store it
resolves names against, and the observable state. -/
structure Console where
  commands : List ConsoleCommand
  cvars : List CVar
  state : ConsoleState

/-- Embedding of `Console::execute` (Console.cpp lines 73-153).  The
initial `wxLogMessage` goes to an external log sink, not to the
transcript, and is not modelled.  An empty line stops immediately;
otherwise the line is prepended to the history, `console_execute` is
announced, the line is tokenized into a command name and arguments, and
the name is resolved with command-over-variable precedence. -/
def Console.execute (con : Console) (command : String) : Console :=
  if command = "" then con
  else
    let st2 := announce "console_execute"
      { con.state with cmd_log := command :: con.state.cmd_log }
    let tokens := tokenize command
    let cmd_name := tokens.headD ""
    let args := tokens.tail
    match con.commands.find? (fun c => c.name == cmd_name) with
    | some c => { con with state := ConsoleCommand.execute c args st2 }
    | none =>
      match get_cvar cmd_name con.cvars with
      | some cv =>
        match args with
        | [] =>
          { con with
              state := logMessage
                ("\"" ++ cmd_name ++ "\" = \"" ++ cvarFormatToString cv.value ++ "\"") st2 }
        | a :: _ =>
          let newVal := cvarSetFromString cv.value a
          { con with
              cvars := updateCVar con.cvars cmd_name newVal,
              state := logMessage
                ("\"" ++ cmd_name ++ "\" = \"" ++ cvarFormatToString newVal ++ "\"") st2 }
      | none =>
        { con with
            state := logMessage ("Unknown command: \"" ++ cmd_name ++ "\"") st2 }

/-! Arithmetic facts about the decimal renderer and the decimal parsers,
leading to the format-then-parse round trips. -/

theorem digitChar_isDigit {d : Nat} (h : d < 10) : (digitChar d).isDigit = true := by
  interval_cases d <;> decide

theorem digitVal_digitChar {d : Nat} (h : d < 10) : digitVal (digitChar d) = d := by
  interval_cases d <;> decide

theorem digitChar_plain {d : Nat} (h : d < 10) :
    (digitChar d).isWhitespace = false ∧ digitChar d ≠ '-' ∧ digitChar d ≠ '+' := by
  interval_cases d <;> decide

theorem scanDigits_natToDigitsAux (fuel : Nat) :
    ∀ n, n < fuel → ∀ rest acc k,
      scanDigits (natToDigitsAux fuel n ++ rest) acc k =
        scanDigits rest (acc * 10 ^ (natToDigitsAux fuel n).length + n)
          (k + (natToDigitsAux fuel n).length) := by
  induction fuel with
  | zero => intro n h; omega
  | succ f ih =>
    intro n hn rest acc k
    by_cases h10 : n < 10
    · simp only [natToDigitsAux, if_pos h10, List.cons_append, List.nil_append,
        List.length_singleton]
      rw [scanDigits, if_pos (digitChar_isDigit h10), digitVal_digitChar h10]
      ring_nf
    · have hdiv : n / 10 < f := by omega
      simp only [natToDigitsAux, if_neg h10]
      rw [List.append_assoc, List.singleton_append, ih (n / 10) hdiv]
      rw [scanDigits, if_pos (digitChar_isDigit (by omega : n % 10 < 10)),
        digitVal_digitChar (by omega : n % 10 < 10)]
      rw [List.length_append, List.length_singleton]
      have hmod : 10 * (n / 10) + n % 10 = n := by omega
      rw [show ∀ L, 10 * (acc * 10 ^ L + n / 10) + n % 10 =
            acc * 10 ^ (L + 1) + n from fun L => by rw [pow_succ]; ring_nf; omega]
      ring_nf

theorem scanDigits_natToDigits_append (n : Nat) (rest : List Char) (acc k : Nat) :
    scanDigits (natToDigits n ++ rest) acc k =
      scanDigits rest (acc * 10 ^ (natToDigits n).length + n)
        (k + (natToDigits n).length) :=
  scanDigits_natToDigitsAux (n + 1) n (by omega) rest acc k

theorem scanDigits_natToDigits (n : Nat) :
    scanDigits (natToDigits n) 0 0 = (n, (natToDigits n).length, []) := by
  have h := scanDigits_natToDigits_append n [] 0 0
  simpa [scanDigits] using h

theorem natToDigitsAux_length_le (fuel : Nat) :
    ∀ n, n < fuel → ∀ j, 1 ≤ j → n < 10 ^ j →
      (natToDigitsAux fuel n).length ≤ j := by
  induction fuel with
  | zero => intro n h; omega
  | succ f ih =>
    intro n hn j hj hpow
    by_cases h10 : n < 10
    · simp only [natToDigitsAux, if_pos h10, List.length_singleton]
      omega
    · have hj2 : 2 ≤ j := by
        by_contra hc
        have : j = 1 := by omega
        subst this
        simp at hpow
        omega
      have hdivpow : n / 10 < 10 ^ (j - 1) := by
        rw [Nat.div_lt_iff_lt_mul (by omega : 0 < 10)]
        calc n < 10 ^ j := hpow
          _ = 10 ^ (j - 1) * 10 := by
            rw [← pow_succ]
            congr 1
            omega
      have := ih (n / 10) (by omega) (j - 1) (by omega) hdivpow
      simp only [natToDigitsAux, if_neg h10, List.length_append, List.length_singleton]
      omega

theorem natToDigits_length_le_four {n : Nat} (h : n < 10000) :
    (natToDigits n).length ≤ 4 :=
  natToDigitsAux_length_le (n + 1) n (by omega) 4 (by omega) (by omega)

theorem natToDigitsAux_head (fuel : Nat) :
    ∀ n, n < fuel → ∃ d t, d < 10 ∧ natToDigitsAux fuel n = digitChar d :: t := by
  induction fuel with
  | zero => intro n h; omega
  | succ f ih =>
    intro n hn
    by_cases h10 : n < 10
    · exact ⟨n, [], h10, by simp [natToDigitsAux, if_pos h10]⟩
    · obtain ⟨d, t, hd, heq⟩ := ih (n / 10) (by omega)
      refine ⟨d, t ++ [digitChar (n % 10)], hd, ?_⟩
      simp [natToDigitsAux, if_neg h10, heq]

theorem natToDigits_head (n : Nat) :
    ∃ d t, d < 10 ∧ natToDigits n = digitChar d :: t :=
  natToDigitsAux_head (n + 1) n (by omega)

theorem scanDigits_replicate_zero (m : Nat) :
    ∀ rest acc k, scanDigits (List.replicate m '0' ++ rest) acc k =
      scanDigits rest (acc * 10 ^ m) (k + m) := by
  induction m with
  | zero => intro rest acc k; simp
  | succ m ih =>
    intro rest acc k
    rw [List.replicate_succ, List.cons_append, scanDigits,
      if_pos (by decide : ('0' : Char).isDigit = true),
      show digitVal '0' = 0 from by decide, ih]
    congr 1
    · ring
    · omega

theorem scanDigits_padZeros (f : Nat) (hf : f < 10000) (rest : List Char) :
    scanDigits (padZeros 4 (natToDigits f) ++ rest) 0 0 =
      scanDigits rest f 4 := by
  have hL : (natToDigits f).length ≤ 4 := natToDigits_length_le_four hf
  rw [padZeros, List.append_assoc, scanDigits_replicate_zero,
    scanDigits_natToDigits_append]
  congr 1
  · simp
  · omega

theorem atoiSigned_natToDigits (n : Nat) : atoiSigned (natToDigits n) = (n : Int) := by
  obtain ⟨d, t, hd, heq⟩ := natToDigits_head n
  obtain ⟨hws, hminus, hplus⟩ := digitChar_plain hd
  rw [heq, atoiSigned, if_neg hminus, if_neg hplus, ← heq, scanDigits_natToDigits]

theorem dropWhile_ws_natToDigits (n : Nat) :
    (natToDigits n).dropWhile (fun c => c.isWhitespace) = natToDigits n := by
  obtain ⟨d, t, hd, heq⟩ := natToDigits_head n
  obtain ⟨hws, _, _⟩ := digitChar_plain hd
  rw [heq, List.dropWhile_cons, hws]
  simp

theorem atoi_formatInt (i : Int) : atoi (formatInt i) = i := by
  have hdata : (formatInt i).data = intToChars i := rfl
  rw [atoi, atoiChars, hdata, intToChars]
  by_cases h : i < 0
  · rw [if_pos h, List.dropWhile_cons, if_neg (by decide),
      atoiSigned, if_pos rfl, scanDigits_natToDigits]
    omega
  · rw [if_neg h, dropWhile_ws_natToDigits, atoiSigned_natToDigits]
    omega

theorem atofFrac_point (ipart : Nat) (fr : List Char) :
    atofFrac ipart ('.' :: fr) =
      (ipart : ℚ) + ((scanDigits fr 0 0).1 : ℚ) / (10 : ℚ) ^ (scanDigits fr 0 0).2.1 :=
  rfl

theorem div_add_mod_q (m : Nat) :
    ((m / 10000 : Nat) : ℚ) + ((m % 10000 : Nat) : ℚ) / (10 : ℚ) ^ 4 = (m : ℚ) / 10000 := by
  rw [show ((10 : ℚ) ^ 4) = 10000 from by norm_num]
  field_simp
  rw [mul_comm]
  exact_mod_cast Nat.div_add_mod m 10000

theorem atofMag_floatMagChars (m : Nat) : atofMag (floatMagChars m) = (m : ℚ) / 10000 := by
  have hmod : m % 10000 < 10000 := Nat.mod_lt _ (by omega)
  have hpad := scanDigits_padZeros (m % 10000) hmod []
  rw [List.append_nil] at hpad
  simp only [atofMag, floatMagChars]
  rw [scanDigits_natToDigits_append, scanDigits, if_neg (by decide)]
  simp only [Nat.zero_mul, Nat.zero_add]
  rw [atofFrac_point, hpad, scanDigits]
  exact div_add_mod_q m

theorem atofSigned_floatMagChars (m : Nat) :
    atofSigned (floatMagChars m) = (m : ℚ) / 10000 := by
  obtain ⟨d, t, hd, heq⟩ := natToDigits_head (m / 10000)
  obtain ⟨hws, hminus, hplus⟩ := digitChar_plain hd
  have hcons : floatMagChars m =
      digitChar d :: (t ++ '.' :: padZeros 4 (natToDigits (m % 10000))) := by
    rw [floatMagChars, heq, List.cons_append]
  rw [hcons, atofSigned, if_neg hminus, if_neg hplus, ← List.cons_append, ← heq,
    ← floatMagChars, atofMag_floatMagChars]

theorem dropWhile_ws_floatMagChars (m : Nat) :
    (floatMagChars m).dropWhile (fun c => c.isWhitespace) = floatMagChars m := by
  obtain ⟨d, t, hd, heq⟩ := natToDigits_head (m / 10000)
  obtain ⟨hws, _, _⟩ := digitChar_plain hd
  rw [floatMagChars, heq, List.cons_append, List.dropWhile_cons, hws]
  simp

theorem atof_formatFloat {q : ℚ} (h : (q * 10000).den = 1) : atof (formatFloat q) = q := by
  have hq : ((q * 10000).num : ℚ) = q * 10000 := (Rat.den_eq_one_iff _).mp h
  have hn : round (q * 10000) = (q * 10000).num := by
    conv_lhs => rw [← hq]
    exact round_intCast _
  have hqval : q = (((q * 10000).num : ℚ)) / 10000 := by
    rw [hq]
    field_simp
  set n : Int := (q * 10000).num with hndef
  rw [atof, atofChars, formatFloat]
  simp only [hn]
  by_cases hneg : n < 0
  · rw [if_pos hneg]
    rw [List.dropWhile_cons, if_neg (by decide), atofSigned, if_pos rfl,
      atofMag_floatMagChars]
    have habs : ((n.natAbs : ℚ)) = -(n : ℚ) := by
      rw [Int.cast_natAbs, abs_of_neg hneg]
      push_cast
      ring
    rw [habs, hqval]
    ring
  · rw [if_neg hneg]
    rw [dropWhile_ws_floatMagChars, atofSigned_floatMagChars]
    have habs : ((n.natAbs : ℚ)) = (n : ℚ) := by
      rw [Int.cast_natAbs, abs_of_nonneg (not_lt.mp hneg)]
    rw [habs, hqval]

/-! Helper computations for the concrete float counterexample. -/

theorem round_counterexample_value : round ((1 : ℚ)/8192 * 10000) = 1 := by
  rw [round_eq, show ((1 : ℚ)/8192 * 10000 + 1/2) = 1762/1024 from by norm_num,
    Int.floor_eq_iff]
  norm_num

theorem formatFloat_counterexample_value : formatFloat (1/8192) = "0.0001" := by
  simp only [formatFloat]
  rw [round_counterexample_value]
  rfl

theorem atof_counterexample_value : atof "0.0001" = 1/10000 := by
  rw [atof, atofChars,
    show ("0.0001".data) = ['0', '.', '0', '0', '0', '1'] from rfl,
    show List.dropWhile (fun c => c.isWhitespace) ['0', '.', '0', '0', '0', '1'] =
      ['0', '.', '0', '0', '0', '1'] from rfl,
    atofSigned, if_neg (by decide), if_neg (by decide)]
  simp only [atofMag]
  rw [show scanDigits ['0', '.', '0', '0', '0', '1'] 0 0 =
      (0, 1, ['.', '0', '0', '0', '1']) from rfl]
  rw [atofFrac_point,
    show scanDigits ['0', '0', '0', '1'] 0 0 = (1, 4, []) from rfl]
  norm_num

/-! Structural lemmas about the dispatcher, one per branch of
`Console.execute`, and about the transcript. -/

theorem tokenize_ne_empty {line name : String} {args : List String}
    (h : tokenize line = name :: args) : line ≠ "" := by
  intro he
  subst he
  simp [tokenize, splitTokens] at h

theorem execute_cmd_branch (con : Console) (line name : String) (args : List String)
    (c : ConsoleCommand) (htok : tokenize line = name :: args)
    (hfind : con.commands.find? (fun k => k.name == name) = some c) :
    Console.execute con line =
      { con with state := (ConsoleCommand.execute c args
          (announce "console_execute" { con.state with cmd_log := line :: con.state.cmd_log })) } := by
  have hne : line ≠ "" := tokenize_ne_empty htok
  simp only [Console.execute, if_neg hne, htok, List.headD_cons, List.tail_cons, hfind]

theorem execute_cvar_nil_branch (con : Console) (line name : String) (cv : CVar)
    (htok : tokenize line = [name])
    (hfind : con.commands.find? (fun k => k.name == name) = none)
    (hcv : get_cvar name con.cvars = some cv) :
    Console.execute con line =
      { con with state := (logMessage
          ("\"" ++ name ++ "\" = \"" ++ cvarFormatToString cv.value ++ "\"")
          (announce "console_execute" { con.state with cmd_log := line :: con.state.cmd_log })) } := by
  have hne : line ≠ "" := tokenize_ne_empty htok
  simp only [Console.execute, if_neg hne, htok, List.headD_cons, List.tail_cons, hfind, hcv]

theorem execute_cvar_cons_branch (con : Console) (line name a : String)
    (rest : List String) (cv : CVar)
    (htok : tokenize line = name :: a :: rest)
    (hfind : con.commands.find? (fun k => k.name == name) = none)
    (hcv : get_cvar name con.cvars = some cv) :
    Console.execute con line =
      { con with
          cvars := updateCVar con.cvars name (cvarSetFromString cv.value a),
          state := (logMessage
            ("\"" ++ name ++ "\" = \"" ++
              cvarFormatToString (cvarSetFromString cv.value a) ++ "\"")
            (announce "console_execute" { con.state with cmd_log := line :: con.state.cmd_log })) } := by
  have hne : line ≠ "" := tokenize_ne_empty htok
  simp only [Console.execute, if_neg hne, htok, List.headD_cons, List.tail_cons, hfind, hcv]

theorem execute_unknown_branch (con : Console) (line name : String) (args : List String)
    (htok : tokenize line = name :: args)
    (hfind : con.commands.find? (fun k => k.name == name) = none)
    (hcv : get_cvar name con.cvars = none) :
    Console.execute con line =
      { con with state := (logMessage ("Unknown command: \"" ++ name ++ "\"")
          (announce "console_execute" { con.state with cmd_log := line :: con.state.cmd_log })) } := by
  have hne : line ≠ "" := tokenize_ne_empty htok
  simp only [Console.execute, if_neg hne, htok, List.headD_cons, List.tail_cons, hfind, hcv]

theorem string_append_data (s t : String) : (s ++ t).data = s.data ++ t.data := by
  cases s
  cases t
  rfl

theorem string_append_assoc (s t u : String) : s ++ t ++ u = s ++ (t ++ u) := by
  cases s with | mk a =>
  cases t with | mk b =>
  cases u with | mk c =>
  show String.mk ((a ++ b) ++ c) = String.mk (a ++ (b ++ c))
  rw [List.append_assoc]

theorem quote_terminated_data (s : String) : (s ++ "\"").data.getLast? = some '"' := by
  rw [string_append_data]
  exact List.getLast?_concat _

theorem lastLogLine_logMessage (m : String) (st : ConsoleState) :
    lastLogLine (logMessage m st) =
      if m.data.getLast? = some '\n' then m else m ++ "\n" := by
  simp only [lastLogLine, logMessage]
  rw [List.getLast?_concat]
  rfl


theorem append_quote_newline (s : String) : (s ++ "\"") ++ "\n" = s ++ "\"\n" := by
  rw [string_append_assoc]
  rfl

theorem lastLogLine_quote_line (s : String) (st : ConsoleState) :
    lastLogLine (logMessage (s ++ "\"") st) = s ++ "\"\n" := by
  rw [lastLogLine_logMessage, if_neg (by simp [quote_terminated_data]),
    append_quote_newline]

theorem logMessage_quote_log (s : String) (st : ConsoleState) :
    (logMessage (s ++ "\"") st).log = st.log ++ [s ++ "\"\n"] := by
  simp only [logMessage]
  rw [if_neg (by simp [quote_terminated_data]), append_quote_newline]

instance : IsTotal ConsoleCommand (fun a b => a.name ≤ b.name) :=
  ⟨fun a b => le_total a.name b.name⟩

instance : IsTrans ConsoleCommand (fun a b => a.name ≤ b.name) :=
  ⟨fun _ _ _ h1 h2 => le_trans h1 h2⟩

/-- Sample handler mirroring the `echo` console command (Console.cpp
lines 267-269): print the first argument, requires at least one. -/
def echoCmd : ConsoleCommand :=
  ⟨"echo", fun args st => logMessage (args.headD "") st, 1⟩

/-- Sample console with the `echo` command and an integer cvar. -/
def sampleCon : Console :=
  ⟨[echoCmd], [⟨"pagesize", CVarValue.int 5⟩], ⟨[], [], []⟩⟩

/-- Sample console with no commands and one boolean cvar. -/
def boolCon : Console :=
  ⟨[], [⟨"fullbright", CVarValue.bool false⟩], ⟨[], [], []⟩⟩

/-- Sample console with no commands and no cvars. -/
def emptyCon : Console := ⟨[], [], ⟨[], [], []⟩⟩

/-- Sample one-element command registry. -/
def singleCmdList : List ConsoleCommand := [⟨"cmdlist", fun _ st => st, 0⟩]

/-- C1: for every non-empty input line whose first token exactly
(case-sensitively) matches a registered command name, `execute` runs
that command's handler path on the post-announce state and returns with
the variable store untouched and unconsulted; the store is looked up
only when no command matched, and the unknown-command report is emitted
only when no variable matched either (command > variable > error). -/
theorem dispatch_precedence (con : Console) (line name : String) (args : List String)
    (htok : tokenize line = name :: args) :
    (∀ c, con.commands.find? (fun k => k.name == name) = some c →
      (Console.execute con line).cvars = con.cvars ∧
      (Console.execute con line).state = ConsoleCommand.execute c args
        (announce "console_execute" { con.state with cmd_log := line :: con.state.cmd_log })) ∧
    (con.commands.find? (fun k => k.name == name) = none →
      ∀ cv, get_cvar name con.cvars = some cv →
      (Console.execute con line).state = logMessage
        ("\"" ++ name ++ "\" = \"" ++
          cvarFormatToString (match args with
            | [] => cv.value
            | a :: _ => cvarSetFromString cv.value a) ++ "\"")
        (announce "console_execute" { con.state with cmd_log := line :: con.state.cmd_log })) ∧
    (con.commands.find? (fun k => k.name == name) = none →
      get_cvar name con.cvars = none →
      Console.execute con line =
        { con with state := (logMessage ("Unknown command: \"" ++ name ++ "\"")
            (announce "console_execute"
              { con.state with cmd_log := line :: con.state.cmd_log })) }) := by
  refine ⟨?_, ?_, ?_⟩
  · intro c hfind
    rw [execute_cmd_branch con line name args c htok hfind]
    exact ⟨rfl, rfl⟩
  · intro hfind cv hcv
    cases args with
    | nil => rw [execute_cvar_nil_branch con line name cv htok hfind hcv]
    | cons a rest => rw [execute_cvar_cons_branch con line name a rest cv htok hfind hcv]
  · intro hfind hcv
    exact execute_unknown_branch con line name args htok hfind hcv

theorem dispatch_precedence_witness :
    (Console.execute sampleCon "echo hi").state.log = ["hi\n"] ∧
    (Console.execute sampleCon "echo hi").cvars = sampleCon.cvars := by
  have h := (dispatch_precedence sampleCon "echo hi" "echo" ["hi"] (by decide)).1 echoCmd rfl
  refine ⟨?_, h.1⟩
  rw [h.2]
  rfl

/-- C2: the claim says `lastCommand()` returns the most recent history
entry; the code reads the back of the front-insertion history vector,
which after two executed lines is the oldest entry "cmd1", not the most
recent "cmd2". -/
theorem lastCommand_oldest_entry :
    (Console.execute (Console.execute emptyCon "cmd1") "cmd2").state.cmd_log =
      ["cmd2", "cmd1"] ∧
    lastCommand ((Console.execute (Console.execute emptyCon "cmd1") "cmd2").state) =
      "cmd1" :=
  ⟨rfl, rfl⟩

/-- C3 (amended): applying `setFromString` to the `formatToString`
rendering of a stored value on a fresh variable of the same type
reproduces the value for the Boolean, Integer and String types at every
value, and for the Float type at every value that is an integer multiple
of 1/10000 (the 4-decimal rendering is exact there). -/
theorem cvar_roundtrip (v w : CVarValue) (h : sameType v w = true)
    (hf : ∀ q : ℚ, v = CVarValue.float q → (q * 10000).den = 1) :
    cvarSetFromString w (cvarFormatToString v) = v := by
  cases v with
  | bool b =>
    cases w with
    | bool b' => cases b <;> rfl
    | int i => simp [sameType] at h
    | float q => simp [sameType] at h
    | str s => simp [sameType] at h
  | int i =>
    cases w with
    | bool _ => simp [sameType] at h
    | int i' =>
      show CVarValue.int (atoi (formatInt i)) = CVarValue.int i
      rw [atoi_formatInt]
    | float _ => simp [sameType] at h
    | str _ => simp [sameType] at h
  | float q =>
    cases w with
    | bool _ => simp [sameType] at h
    | int _ => simp [sameType] at h
    | float q' =>
      show CVarValue.float (atof (formatFloat q)) = CVarValue.float q
      rw [atof_formatFloat (hf q rfl)]
    | str _ => simp [sameType] at h
  | str s =>
    cases w with
    | bool _ => simp [sameType] at h
    | int _ => simp [sameType] at h
    | float _ => simp [sameType] at h
    | str s' => rfl

theorem cvar_roundtrip_witness :
    sameType (CVarValue.int 35) (CVarValue.int 0) = true ∧
    cvarSetFromString (CVarValue.int 0) (cvarFormatToString (CVarValue.int 35)) =
      CVarValue.int 35 :=
  ⟨rfl, cvar_roundtrip (CVarValue.int 35) (CVarValue.int 0) rfl (fun _ hq => nomatch hq)⟩

/-- C3 counterexample: the claim fails for the Float type.  The stored
value 1/8192 (the exactly representable machine float 2^-13) formats
under `"%1.4f"` to "0.0001", which parses back to 1/10000 ≠ 1/8192. -/
theorem cvar_roundtrip_counterexample :
    cvarSetFromString (CVarValue.float 0) (cvarFormatToString (CVarValue.float (1/8192))) ≠
      CVarValue.float (1/8192) := by
  rw [show cvarFormatToString (CVarValue.float (1/8192)) = formatFloat (1/8192) from rfl,
    formatFloat_counterexample_value]
  intro hcon
  rw [show cvarSetFromString (CVarValue.float 0) "0.0001" =
      CVarValue.float (atof "0.0001") from rfl,
    atof_counterexample_value] at hcon
  simp only [CVarValue.float.injEq] at hcon
  norm_num at hcon

/-- C4: after any sequence of registrations, in any order, the command
registry is sorted in ascending alphabetical (character-code ordinal)
order of name; since `addCommand` re-sorts on every insertion, the
invariant holds after every insertion regardless of the prior list. -/
theorem addCommand_sorted (cs : List ConsoleCommand) (c : ConsoleCommand) :
    List.Sorted (fun a b => a.name ≤ b.name) (addCommand cs c) :=
  List.sorted_insertionSort _ _

/-- C5: an input line resolving to a registered command with fewer
arguments than the command's declared minimum does not invoke the
handler (the resulting console is independent of the handler function)
and the transcript's last line becomes "Missing command arguments". -/
theorem missing_arguments (con : Console) (line name : String) (args : List String)
    (c : ConsoleCommand) (htok : tokenize line = name :: args)
    (hfind : con.commands.find? (fun k => k.name == name) = some c)
    (hmin : args.length < c.min_args) :
    Console.execute con line =
      { con with state := (logMessage "Missing command arguments"
          (announce "console_execute"
            { con.state with cmd_log := line :: con.state.cmd_log })) } ∧
    lastLogLine (Console.execute con line).state = "Missing command arguments\n" := by
  have hb := execute_cmd_branch con line name args c htok hfind
  have hcc : ConsoleCommand.execute c args
      (announce "console_execute" { con.state with cmd_log := line :: con.state.cmd_log }) =
      logMessage "Missing command arguments"
        (announce "console_execute" { con.state with cmd_log := line :: con.state.cmd_log }) := by
    simp only [ConsoleCommand.execute]
    rw [if_neg (by omega)]
  constructor
  · rw [hb, hcc]
  · rw [hb]
    show lastLogLine (ConsoleCommand.execute c args _) = _
    rw [hcc, lastLogLine_logMessage]
    rfl

theorem missing_arguments_witness :
    (Console.execute sampleCon "echo").state.log = ["Missing command arguments\n"] := by
  have h := missing_arguments sampleCon "echo" "echo" [] echoCmd (by decide) rfl (by decide)
  rw [h.1]
  rfl

/-- C6: executing the empty line is a no-op on the console: the
transcript, the history and the announcement channel (hence the
notification count) are all left unchanged. -/
theorem execute_empty_line (con : Console) : Console.execute con "" = con := by
  simp [Console.execute]

/-- C7: an input line assigning to a Boolean variable sets it to false
exactly when the first argument token is the literal "0" or "false"
(case-sensitive), and to true for every other token; the transcript line
logged afterwards shows "false" or "true" accordingly. -/
theorem bool_assignment (con : Console) (line name a : String) (rest : List String)
    (cv : CVar) (b : Bool)
    (htok : tokenize line = name :: a :: rest)
    (hfind : con.commands.find? (fun k => k.name == name) = none)
    (hcv : get_cvar name con.cvars = some cv)
    (hb : cv.value = CVarValue.bool b) :
    (Console.execute con line).cvars =
      updateCVar con.cvars name
        (CVarValue.bool (if a == "0" || a == "false" then false else true)) ∧
    lastLogLine (Console.execute con line).state =
      "\"" ++ name ++ "\" = \"" ++
        (if a == "0" || a == "false" then "false" else "true") ++ "\"\n" := by
  have hb2 : cvarSetFromString cv.value a =
      CVarValue.bool (if a == "0" || a == "false" then false else true) := by
    rw [hb]
    rfl
  have hbr := execute_cvar_cons_branch con line name a rest cv htok hfind hcv
  constructor
  · rw [hbr, hb2]
  · rw [hbr]
    show lastLogLine (logMessage _ _) = _
    rw [hb2]
    by_cases hc : (a == "0" || a == "false") = true
    · rw [if_pos hc, if_pos hc]
      exact lastLogLine_quote_line ("\"" ++ name ++ "\" = \"" ++ "false") _
    · rw [if_neg hc, if_neg hc]
      exact lastLogLine_quote_line ("\"" ++ name ++ "\" = \"" ++ "true") _

theorem bool_assignment_witness :
    (Console.execute boolCon "fullbright 1").cvars =
      [⟨"fullbright", CVarValue.bool true⟩] ∧
    lastLogLine (Console.execute boolCon "fullbright 1").state =
      "\"fullbright\" = \"true\"\n" := by
  have h := bool_assignment boolCon "fullbright 1" "fullbright" "1" []
    ⟨"fullbright", CVarValue.bool false⟩ false (by decide) rfl rfl rfl
  refine ⟨?_, ?_⟩
  · rw [h.1]
    rfl
  · rw [h.2]
    rfl

/-- C8: querying a declared variable whose name matches no command, with
no argument tokens, appends the transcript line "<name>" = "<value>"
showing the current value and leaves the variable store unchanged. -/
theorem cvar_query_no_mutation (con : Console) (line name : String) (cv : CVar)
    (htok : tokenize line = [name])
    (hfind : con.commands.find? (fun k => k.name == name) = none)
    (hcv : get_cvar name con.cvars = some cv) :
    (Console.execute con line).cvars = con.cvars ∧
    (Console.execute con line).state.log =
      con.state.log ++
        ["\"" ++ name ++ "\" = \"" ++ cvarFormatToString cv.value ++ "\"\n"] := by
  have hbr := execute_cvar_nil_branch con line name cv htok hfind hcv
  constructor
  · rw [hbr]
  · rw [hbr]
    show (logMessage _ _).log = _
    exact logMessage_quote_log ("\"" ++ name ++ "\" = \"" ++ cvarFormatToString cv.value) _

theorem cvar_query_no_mutation_witness :
    (Console.execute sampleCon "pagesize").cvars = sampleCon.cvars ∧
    (Console.execute sampleCon "pagesize").state.log = ["\"pagesize\" = \"5\"\n"] := by
  have h := cvar_query_no_mutation sampleCon "pagesize" "pagesize"
    ⟨"pagesize", CVarValue.int 5⟩ (by decide) rfl rfl
  refine ⟨h.1, ?_⟩
  rw [h.2]
  rfl

/-- C9: a non-empty line whose first token matches neither a command nor
a variable appends exactly the transcript line
Unknown command: "<token>" and changes nothing else in the store. -/
theorem unknown_command_logged (con : Console) (line name : String) (args : List String)
    (htok : tokenize line = name :: args)
    (hfind : con.commands.find? (fun k => k.name == name) = none)
    (hcv : get_cvar name con.cvars = none) :
    (Console.execute con line).state.log =
      con.state.log ++ ["Unknown command: \"" ++ name ++ "\"\n"] ∧
    (Console.execute con line).cvars = con.cvars := by
  have hbr := execute_unknown_branch con line name args htok hfind hcv
  constructor
  · rw [hbr]
    exact logMessage_quote_log ("Unknown command: \"" ++ name) _
  · rw [hbr]

theorem unknown_command_logged_witness :
    (Console.execute emptyCon "boguscmd").state.log =
      ["Unknown command: \"boguscmd\"\n"] := by
  have h := unknown_command_logged emptyCon "boguscmd" "boguscmd" [] (by decide) rfl rfl
  rw [h.1]
  rfl

/-- C10: with at least one command registered, the enumeration accessor
is total: every index at or beyond the registry size yields the command
at index 0 rather than failing. -/
theorem command_index_wraps (cs : List ConsoleCommand) (index : Nat)
    (h1 : cs ≠ []) (h2 : cs.length ≤ index) :
    Console.command cs index = cs[0]? ∧ (Console.command cs index).isSome := by
  have hlt : ¬ index < cs.length := by omega
  simp only [Console.command]
  rw [dif_neg hlt]
  refine ⟨rfl, ?_⟩
  cases cs with
  | nil => exact absurd rfl h1
  | cons a t => simp

theorem command_index_wraps_witness :
    Console.command singleCmdList 7 = singleCmdList[0]? ∧
    (Console.command singleCmdList 7).isSome :=
  command_index_wraps singleCmdList 7 (by simp [singleCmdList]) (by decide)
